import Mathlib

/-!
# Verification of the decentralized anomaly-detection simulation

Shallow embedding, in Lean 4, of the parts of the repository that the
frozen claims are about:

* the SQLite-backed append-only ledger (`src/decentralized-ai-simulation/
  src/core/database.py` — the "core" variant with `UNIQUE(timestamp,
  node_id)` and `INSERT OR REPLACE` — and the top-level `src/database.py`
  variant with a plain `INSERT`),
* the consensus resolution of the simulation engine (`src/simulation.py`),
* the anomaly agent's polling, validation cache and traffic window
  (`src/agents.py`, `src/decentralized-ai-simulation/src/core/agents.py`,
  `src/decentralized-ai-simulation/src/core/agents/agent_manager.py`),
* the atomic file writer (`src/decentralized-ai-simulation/src/utils/
  file_manager.py`),
* the 3D position mapper (`src/backend/data_transformers.py`),
* the configuration loader's value cache (`src/config_loader.py`).

Machine floats are modelled as exact rationals (or reals where the code
uses transcendental library functions); Python's `random` draws, the wall
clock, `hash()` randomization and storage-layer (SQLite) failures are
modelled as explicit oracle inputs, constrained exactly as the library
they stand for constrains them.
-/

/-! ## Python value universe

Ledger entries and configuration trees are Python dicts holding floats,
strings, lists and nested dicts.  `PyVal` is that (JSON-serializable)
universe; a dict is an insertion-ordered association list, as in CPython.
-/

inductive PyVal : Type where
  | num (q : ℚ)
  | str (s : String)
  | listV (elems : List PyVal)
  | dictV (entries : List (String × PyVal))

/-- `isinstance(v, (int, float))` for our universe. -/
def PyVal.isNum : PyVal → Bool
  | .num _ => true
  | _ => false

/-- `isinstance(v, str)` for our universe. -/
def PyVal.isStr : PyVal → Bool
  | .str _ => true
  | _ => false

/-- `isinstance(v, (list, dict))` for our universe. -/
def PyVal.isListOrDict : PyVal → Bool
  | .listV _ => true
  | .dictV _ => true
  | _ => false

/-- Numeric payload, when the value is a number. -/
def PyVal.asNum : PyVal → Option ℚ
  | .num q => some q
  | _ => none

/-- String payload, when the value is a string. -/
def PyVal.asStr : PyVal → Option String
  | .str s => some s
  | _ => none

/-- A Python dict, as used for ledger entries: key → value lookup. -/
abbrev PyDict := List (String × PyVal)

/-- `entry[key]`, returning `none` on a missing key. -/
def dictGet (d : PyDict) (key : String) : Option PyVal :=
  d.lookup key

/-! ## Core ledger (`src/decentralized-ai-simulation/src/core/database.py`)

Schema (`DatabaseLedger._init_db`): autoincrement integer `id`,
`timestamp REAL`, `node_id TEXT`, `features TEXT` (JSON), `confidence
REAL`, with `UNIQUE(timestamp, node_id)`.  A `DBState` is the table
content plus the autoincrement high-water mark: SQLite's AUTOINCREMENT
never reuses a rowid, so `nextId` only grows.  Rows are kept in
insertion order; since every insert receives a fresh maximal id, the
row list is always ascending in `id` and `SELECT ... ORDER BY id ASC`
is the identity on this representation. -/

structure Row where
  id : Nat
  timestamp : ℚ
  nodeId : String
  features : PyVal
  confidence : ℚ


structure DBState where
  rows : List Row
  nextId : Nat


/-- A fresh ledger, as produced by `_init_db` on a new file
(SQLite rowids start at 1). -/
def DBState.empty : DBState := { rows := [], nextId := 1 }

/-- `not s.strip()` — a string is falsy after stripping iff every one
of its characters is whitespace.  (Stated on `s.data` so that it
reduces structurally.) -/
def stripEmpty (s : String) : Bool :=
  s.data.all Char.isWhitespace

/-- `DatabaseLedger._validate_entry` (database.py:244-268): presence of
the four required keys, then type and range checks, in source order.
`entry['node_id'].strip()` must be non-empty, confidence must lie in
[0,1]. -/
def validateEntry (entry : PyDict) : Except String Unit :=
  match dictGet entry "timestamp" with
  | none => .error "Entry missing required keys"
  | some ts =>
    match dictGet entry "node_id" with
    | none => .error "Entry missing required keys"
    | some nid =>
      match dictGet entry "features" with
      | none => .error "Entry missing required keys"
      | some feats =>
        match dictGet entry "confidence" with
        | none => .error "Entry missing required keys"
        | some conf =>
          if !ts.isNum then .error "Timestamp must be a number"
          else
            match nid.asStr with
            | none => .error "Node ID must be a non-empty string"
            | some s =>
              if stripEmpty s then .error "Node ID must be a non-empty string"
              else if !feats.isListOrDict then
                .error "Features must be a list or dictionary"
              else
                match conf.asNum with
                | none => .error "Confidence must be a number"
                | some c =>
                  if !(decide (0 ≤ c) && decide (c ≤ 1)) then
                    .error "Confidence must be between 0 and 1"
                  else .ok ()

/-- Substring containment on character lists, structurally: `pat`
occurs somewhere in the haystack. -/
def charListHas (pat : List Char) : List Char → Bool
  | [] => pat.isEmpty
  | c :: rest => pat.isPrefixOf (c :: rest) || charListHas pat rest

/-- `msg.lower()`, character by character. -/
def toLowerChars (s : String) : List Char :=
  s.data.map Char.toLower

/-- `DatabaseLedger._is_transient_error` (database.py:270-273): the
lowered error message contains one of "locked", "busy", "timeout". -/
def isTransientError (msg : String) : Bool :=
  ["locked", "busy", "timeout"].any fun term =>
    charListHas term.data (toLowerChars msg)

/-- One outcome of the SQLite `INSERT` attempt, as seen by the
`except` clauses of `append_entry`: success, an `IntegrityError`,
or a generic `sqlite3.Error` carrying its message. -/
inductive SqlOutcome : Type where
  | success
  | integrityError (msg : String)
  | sqlError (msg : String)
deriving DecidableEq

/-- The successful `INSERT OR REPLACE` body (database.py:211-230):
by `UNIQUE(timestamp, node_id)`, any existing row with the same
(timestamp, node_id) pair is deleted, and the new row is inserted with
a fresh autoincrement id (`cursor.lastrowid`). -/
def insertOrReplace (db : DBState) (ts : ℚ) (nid : String) (feats : PyVal)
    (conf : ℚ) : DBState × Nat :=
  let newRow : Row :=
    { id := db.nextId, timestamp := ts, nodeId := nid,
      features := feats, confidence := conf }
  let kept := db.rows.filter fun r => !(r.timestamp = ts ∧ r.nodeId = nid)
  ({ rows := kept ++ [newRow], nextId := db.nextId + 1 }, db.nextId)

/-- Result of a (fuelled) `append_entry` run: the final table state, and
either the new id, an error, or `spinning` — the retry recursion is
still running after the given number of attempts. `sleeps` counts the
`time.sleep(0.1)` back-offs performed before completion. -/
inductive AppendResult : Type where
  | ok (db : DBState) (id : Nat) (sleeps : Nat)
  | err (db : DBState) (msg : String) (sleeps : Nat)
  | spinning


/-- `DatabaseLedger.append_entry` (database.py:193-242), fuelled.

The source validates (`self._validate_entry(entry)`) and then attempts
the insert; an `IntegrityError` raises `ValueError`; any other
`sqlite3.Error` that `_is_transient_error` accepts triggers
`time.sleep(0.1)` followed by `return self.append_entry(entry)` — a
recursive retry with **no retry counter**.  The storage outcome of the
n-th attempt is given by the oracle; `fuel` only bounds how far we
unfold the unbounded source recursion (`spinning` = fuel exhausted with
the call still retrying). -/
def appendEntryFuel (db : DBState) (entry : PyDict)
    (oracle : Nat → SqlOutcome) : Nat → Nat → AppendResult
  | _, 0 => .spinning
  | attempt, fuel + 1 =>
    match validateEntry entry with
    | .error m => .err db m 0
    | .ok () =>
      match (dictGet entry "timestamp").bind PyVal.asNum,
            (dictGet entry "node_id").bind PyVal.asStr,
            dictGet entry "features",
            (dictGet entry "confidence").bind PyVal.asNum with
      | some ts, some nid, some feats, some conf =>
        match oracle attempt with
        | .success =>
            let (db', newId) := insertOrReplace db ts nid feats conf
            .ok db' newId 0
        | .integrityError m =>
            .err db ("Entry violates database constraints: " ++ m) 0
        | .sqlError m =>
            if isTransientError m then
              match appendEntryFuel db entry oracle (attempt + 1) fuel with
              | .ok db' i s => .ok db' i (s + 1)
              | .err db' m' s => .err db' m' (s + 1)
              | .spinning => .spinning
            else .err db m 0
      | _, _, _, _ => .err db "unreachable: validated entry lost a key" 0

/-- Whether an attempt outcome is a transient (`locked`/`busy`/`timeout`)
`sqlite3.Error`, i.e. one the source's retry branch accepts. -/
def SqlOutcome.isTransientFailure : SqlOutcome → Bool
  | .sqlError m => isTransientError m
  | _ => false

/-- The storage oracle of a healthy database: every attempt succeeds. -/
def healthyStorage : Nat → SqlOutcome := fun _ => .success

/-- The storage oracle of a database under sustained write contention:
every attempt fails with SQLite's "database is locked". -/
def lockedStorage : Nat → SqlOutcome := fun _ => .sqlError "database is locked"

/-- `append_entry` against healthy storage (the claims about validation
and insertion behaviour): one attempt always suffices. -/
def appendEntry (db : DBState) (entry : PyDict) : AppendResult :=
  appendEntryFuel db entry healthyStorage 0 1

/-- `DatabaseLedger.read_ledger` (database.py:275-324):
`SELECT ... ORDER BY id ASC`.  Rows are kept ascending in `id`
(fresh maximal ids, order-preserving deletes), so the `ORDER BY`
is the identity here; row decoding never fails in the model. -/
def readLedger (db : DBState) : List Row := db.rows

/-- `DatabaseLedger.get_new_entries` (database.py:333-382):
`SELECT ... WHERE id > ? ORDER BY id ASC`. -/
def getNewEntries (db : DBState) (lastSeenId : Nat) : List Row :=
  db.rows.filter fun r => lastSeenId < r.id

/-- `DatabaseLedger.get_entry_by_id` (database.py:392-452, and the
identical query of `src/database.py:207-249`):
`SELECT ... WHERE id = ?`, `fetchone`. -/
def getEntryById (rows : List Row) (entryId : Nat) : Option Row :=
  rows.find? fun r => r.id == entryId

/-! Field accessors for a validated entry (`entry['timestamp']` and
friends, as read in the `INSERT` of `append_entry`); the defaults are
irrelevant because `_validate_entry` has established presence and type. -/

def entryTimestamp (e : PyDict) : ℚ :=
  ((dictGet e "timestamp").bind PyVal.asNum).getD 0

def entryNodeId (e : PyDict) : String :=
  ((dictGet e "node_id").bind PyVal.asStr).getD ""

def entryFeatures (e : PyDict) : PyVal :=
  (dictGet e "features").getD (.listV [])

def entryConfidence (e : PyDict) : ℚ :=
  ((dictGet e "confidence").bind PyVal.asNum).getD 0

/-- The row that storing entry `e` under rowid `i` creates. -/
def mkRow (i : Nat) (e : PyDict) : Row :=
  { id := i, timestamp := entryTimestamp e,
    nodeId := entryNodeId e, features := entryFeatures e,
    confidence := entryConfidence e }

/-- The row an `INSERT OR REPLACE` of `e` into `db` creates. -/
def appendedRow (db : DBState) (e : PyDict) : Row :=
  mkRow db.nextId e

/-- The (timestamp, node_id) pair of an entry — the `UNIQUE` key of
the core ledger schema. -/
def entryKey (e : PyDict) : ℚ × String := (entryTimestamp e, entryNodeId e)

/-- The (timestamp, node_id) pair of a stored row. -/
def rowKey (r : Row) : ℚ × String := (r.timestamp, r.nodeId)

lemma validateEntry_ok_extract (entry : PyDict)
    (h : validateEntry entry = .ok ()) :
    dictGet entry "timestamp" = some (.num (entryTimestamp entry)) ∧
    dictGet entry "node_id" = some (.str (entryNodeId entry)) ∧
    dictGet entry "features" = some (entryFeatures entry) ∧
    dictGet entry "confidence" = some (.num (entryConfidence entry)) ∧
    0 ≤ entryConfidence entry ∧ entryConfidence entry ≤ 1 := by
  unfold validateEntry at h
  rcases hts : dictGet entry "timestamp" with _ | ts <;> rw [hts] at h
  · simp at h
  rcases hnid : dictGet entry "node_id" with _ | nid <;> rw [hnid] at h
  · simp at h
  rcases hfeats : dictGet entry "features" with _ | feats <;> rw [hfeats] at h
  · simp at h
  rcases hconf : dictGet entry "confidence" with _ | conf <;> rw [hconf] at h
  · simp at h
  cases ts with
  | num tq =>
    cases nid with
    | str s =>
      cases conf with
      | num cq =>
        simp only [PyVal.isNum, PyVal.asStr, PyVal.asNum, Bool.not_true,
          Bool.false_eq_true, if_false] at h
        split at h
        · simp at h
        split at h
        · simp at h
        split at h
        · simp at h
        case _ hrange =>
          have hb : (decide ((0 : ℚ) ≤ cq) && decide (cq ≤ 1)) = true := by
            revert hrange
            cases (decide ((0 : ℚ) ≤ cq) && decide (cq ≤ 1)) <;> simp
          obtain ⟨h0, h1⟩ : (0 : ℚ) ≤ cq ∧ cq ≤ 1 := by simpa using hb
          refine ⟨by simp [entryTimestamp, hts, PyVal.asNum],
                  by simp [entryNodeId, hnid, PyVal.asStr],
                  by simp [entryFeatures, hfeats],
                  by simp [entryConfidence, hconf, PyVal.asNum], ?_, ?_⟩
          · simpa [entryConfidence, hconf, PyVal.asNum] using h0
          · simpa [entryConfidence, hconf, PyVal.asNum] using h1
      | str s' => simp [PyVal.isNum, PyVal.asStr, PyVal.asNum, ite_eq_iff] at h
      | listV l => simp [PyVal.isNum, PyVal.asStr, PyVal.asNum, ite_eq_iff] at h
      | dictV d => simp [PyVal.isNum, PyVal.asStr, PyVal.asNum, ite_eq_iff] at h
    | num q => simp [PyVal.isNum, PyVal.asStr, PyVal.asNum, ite_eq_iff] at h
    | listV l => simp [PyVal.isNum, PyVal.asStr, PyVal.asNum, ite_eq_iff] at h
    | dictV d => simp [PyVal.isNum, PyVal.asStr, PyVal.asNum, ite_eq_iff] at h
  | str s => simp [PyVal.isNum, PyVal.asStr, PyVal.asNum, ite_eq_iff] at h
  | listV l => simp [PyVal.isNum, PyVal.asStr, PyVal.asNum, ite_eq_iff] at h
  | dictV d => simp [PyVal.isNum, PyVal.asStr, PyVal.asNum, ite_eq_iff] at h

lemma validateEntry_error_of_confidence (entry : PyDict) (c : ℚ)
    (hc : dictGet entry "confidence" = some (.num c))
    (hbad : ¬(0 ≤ c ∧ c ≤ 1)) :
    ∃ m, validateEntry entry = .error m := by
  cases hve : validateEntry entry with
  | error m => exact ⟨m, rfl⟩
  | ok u =>
    cases u
    obtain ⟨_, _, _, h4, h5, h6⟩ := validateEntry_ok_extract entry hve
    rw [hc] at h4
    simp only [Option.some.injEq, PyVal.num.injEq] at h4
    exact absurd ⟨h4 ▸ h5, h4 ▸ h6⟩ hbad

/-- Extracting an AppendResult's error content: the table state it left
behind, and the number of back-off sleeps it performed, when it is an
error at all. -/
def AppendResult.errInfo : AppendResult → Option (DBState × Nat)
  | .err db _ s => some (db, s)
  | _ => none

/-- A successful `append_entry` of a validated entry: by the source's
`INSERT OR REPLACE`, rows sharing the `UNIQUE(timestamp, node_id)` key
are dropped, the fresh row is appended with id `db.nextId`, and that id
is returned. -/
lemma appendEntry_ok (db : DBState) (e : PyDict)
    (h : validateEntry e = .ok ()) :
    appendEntry db e =
      .ok { rows := db.rows.filter
              (fun r => !(r.timestamp = entryTimestamp e ∧ r.nodeId = entryNodeId e))
              ++ [mkRow db.nextId e],
            nextId := db.nextId + 1 } db.nextId 0 := by
  obtain ⟨h1, h2, h3, h4, _, _⟩ := validateEntry_ok_extract e h
  simp [appendEntry, appendEntryFuel, h, h1, h2, h3, h4, PyVal.asNum,
    PyVal.asStr, healthyStorage, insertOrReplace, mkRow]

/-- C2: `append_entry` validates the entry before performing any I/O.
With `confidence = 1.5` it fails with an invalid-input error whatever
the storage layer would have done (any oracle, any attempt index, any
fuel), leaving the table exactly as it was and performing no back-off
sleep; a validated entry is inserted with the freshly assigned id
`db.nextId`, which is returned. -/
theorem appendEntry_validates_before_io (db : DBState) (entry : PyDict) :
    (dictGet entry "confidence" = some (.num (3/2)) →
      ∀ oracle attempt fuel,
        (appendEntryFuel db entry oracle attempt (fuel + 1)).errInfo =
          some (db, 0)) ∧
    (validateEntry entry = .ok () →
      appendEntry db entry =
        .ok { rows := db.rows.filter
                (fun r => !(r.timestamp = entryTimestamp entry ∧
                            r.nodeId = entryNodeId entry))
                ++ [appendedRow db entry],
              nextId := db.nextId + 1 } db.nextId 0) := by
  constructor
  · intro hc oracle attempt fuel
    obtain ⟨m, hm⟩ := validateEntry_error_of_confidence entry (3/2) hc (by norm_num)
    simp [appendEntryFuel, hm, AppendResult.errInfo]
  · intro hok
    simpa [appendedRow] using appendEntry_ok db entry hok

def c2entryBad : PyDict :=
  [("timestamp", .num 1), ("node_id", .str "Node_1"),
   ("features", .listV []), ("confidence", .num (3/2))]

def c2entryGood : PyDict :=
  [("timestamp", .num 1), ("node_id", .str "Node_1"),
   ("features", .listV []), ("confidence", .num (mkRat 1 2))]

/-- C2 witness: the theorem applied at one invalid entry (confidence
1.5, against locked storage, to show the error precedes I/O) and one
valid entry appended to a fresh ledger. -/
theorem appendEntry_validates_before_io_witness :
    (appendEntryFuel DBState.empty c2entryBad lockedStorage 5 (0 + 1)).errInfo =
      some (DBState.empty, 0) ∧
    appendEntry DBState.empty c2entryGood =
      .ok { rows := [{ id := 1, timestamp := 1, nodeId := "Node_1",
                       features := .listV [], confidence := mkRat 1 2 }],
            nextId := 2 } 1 0 := by
  constructor
  · exact (appendEntry_validates_before_io DBState.empty c2entryBad).1
      rfl lockedStorage 5 0
  · rw [(appendEntry_validates_before_io DBState.empty c2entryGood).2 rfl]
    rfl

/-- A sequence of `append_entry` calls, as issued by the test scenario
of the claim: the fold of `append_entry` over a list of entries,
failing if any append fails. -/
def appendAll : DBState → List PyDict → Option DBState
  | db, [] => some db
  | db, e :: es =>
    match appendEntry db e with
    | .ok db' _ _ => appendAll db' es
    | _ => none

lemma appendAll_spec (entries : List PyDict) :
    ∀ db : DBState,
    (∀ e ∈ entries, validateEntry e = .ok ()) →
    (∀ r ∈ db.rows, ∀ e ∈ entries, rowKey r ≠ entryKey e) →
    (entries.map entryKey).Nodup →
    appendAll db entries =
      some { rows := db.rows ++
               List.zipWith mkRow (List.range' db.nextId entries.length) entries,
             nextId := db.nextId + entries.length } := by
  induction entries with
  | nil => intro db _ _ _; simp [appendAll]
  | cons e es ih =>
    intro db hval hdisj hnodup
    have hfil : db.rows.filter
        (fun r => !(r.timestamp = entryTimestamp e ∧ r.nodeId = entryNodeId e))
        = db.rows := by
      apply List.filter_eq_self.mpr
      intro r hr
      have hne := hdisj r hr e (by simp)
      simp only [rowKey, entryKey, ne_eq, Prod.mk.injEq, not_and] at hne
      simp only [Bool.not_eq_true', decide_eq_false_iff_not, not_and]
      intro h1 h2
      exact hne h1 h2
    have hstep := ih { rows := db.rows ++ [mkRow db.nextId e],
                       nextId := db.nextId + 1 }
      (fun e' he' => hval e' (by simp [he']))
      (by
        intro r hr e' he'
        rcases List.mem_append.mp hr with hold | hnew
        · exact hdisj r hold e' (by simp [he'])
        · have hre : r = mkRow db.nextId e := by simpa using hnew
          subst hre
          have hkey : rowKey (mkRow db.nextId e) = entryKey e := by
            simp [rowKey, entryKey, mkRow]
          rw [hkey]
          intro hcontra
          have : entryKey e ∈ es.map entryKey := by
            rw [hcontra]; exact List.mem_map_of_mem _ he'
          exact (List.nodup_cons.mp hnodup).1 this)
      (List.nodup_cons.mp hnodup).2
    simp only [appendAll, appendEntry_ok db e (hval e (by simp)), hfil, hstep]
    simp only [List.length_cons, List.range'_succ, List.zipWith_cons_cons,
      List.append_assoc, List.singleton_append, Option.some.injEq, DBState.mk.injEq]
    exact ⟨trivial, by omega⟩

def c4entryA : PyDict :=
  [("timestamp", .num 0), ("node_id", .str "Node_1"),
   ("features", .listV []), ("confidence", .num (mkRat 1 2))]

def c4entryB : PyDict :=
  [("timestamp", .num 0), ("node_id", .str "Node_1"),
   ("features", .listV []), ("confidence", .num (mkRat 3 4))]

def c4db1 : DBState :=
  { rows := [{ id := 1, timestamp := 0, nodeId := "Node_1",
               features := .listV [], confidence := mkRat 1 2 }],
    nextId := 2 }

def c4db2 : DBState :=
  { rows := [{ id := 2, timestamp := 0, nodeId := "Node_1",
               features := .listV [], confidence := mkRat 3 4 }],
    nextId := 3 }

/-- C4 counterexample: two valid entries sharing (timestamp, node_id)
are appended in sequence; by the schema's `UNIQUE(timestamp, node_id)`
and `INSERT OR REPLACE`, the second append **replaces** the first —
`read_ledger` afterwards holds a single row, and the first entry's id
is gone — refuting "a later append (even one with the same timestamp
and node_id as an earlier entry) never replaces or deletes an earlier
entry". -/
theorem appendEntry_upsert_counterexample :
    validateEntry c4entryA = .ok () ∧
    validateEntry c4entryB = .ok () ∧
    appendEntry DBState.empty c4entryA = .ok c4db1 1 0 ∧
    appendEntry c4db1 c4entryB = .ok c4db2 2 0 ∧
    readLedger c4db2 =
      [{ id := 2, timestamp := 0, nodeId := "Node_1",
         features := .listV [], confidence := mkRat 3 4 }] ∧
    getEntryById (readLedger c4db2) 1 = none :=
  ⟨rfl, rfl, rfl, rfl, rfl, rfl⟩

/-- C4 (amended): for every sequence of valid `append_entry` calls *whose
(timestamp, node_id) keys are pairwise distinct*, `read_ledger` returns
exactly the appended entries, in append order, under strictly increasing
ids 1, 2, …, n; the amendment is forced because an append that repeats an
earlier entry's (timestamp, node_id) key replaces that entry
(`INSERT OR REPLACE` under `UNIQUE(timestamp, node_id)`). -/
theorem readLedger_returns_appends_in_order (entries : List PyDict)
    (hval : ∀ e ∈ entries, validateEntry e = .ok ())
    (hkeys : (entries.map entryKey).Nodup) :
    appendAll DBState.empty entries =
      some { rows := List.zipWith mkRow (List.range' 1 entries.length) entries,
             nextId := 1 + entries.length } ∧
    readLedger { rows := List.zipWith mkRow (List.range' 1 entries.length) entries,
                 nextId := 1 + entries.length }
      = List.zipWith mkRow (List.range' 1 entries.length) entries ∧
    (List.zipWith mkRow (List.range' 1 entries.length) entries).map Row.id
      = List.range' 1 entries.length ∧
    (List.range' 1 entries.length).Pairwise (· < ·) := by
  refine ⟨?_, rfl, ?_, ?_⟩
  · simpa using appendAll_spec entries DBState.empty hval (by simp [DBState.empty]) hkeys
  · rw [List.map_zipWith]
    have : ∀ (l : List Nat) (es : List PyDict), l.length = es.length →
        List.zipWith (fun i (_ : PyDict) => i) l es = l := by
      intro l
      induction l with
      | nil => intro es _; simp
      | cons a as ihl =>
        intro es hlen
        cases es with
        | nil => simp at hlen
        | cons e es' => simp [ihl es' (by simpa using hlen)]
    exact this _ _ (by simp)
  · exact List.pairwise_lt_range' 1 entries.length

def c4entryC : PyDict :=
  [("timestamp", .num 5), ("node_id", .str "Node_2"),
   ("features", .listV []), ("confidence", .num 1)]

/-- C4 witness: the amended theorem applied to the two-append sequence
`[c4entryA, c4entryC]`, whose (timestamp, node_id) keys differ. -/
theorem readLedger_returns_appends_in_order_witness :
    appendAll DBState.empty [c4entryA, c4entryC] =
      some { rows := List.zipWith mkRow (List.range' 1 2) [c4entryA, c4entryC],
             nextId := 1 + 2 } ∧
    (List.zipWith mkRow (List.range' 1 2) [c4entryA, c4entryC]).map Row.id
      = List.range' 1 2 := by
  have h := readLedger_returns_appends_in_order [c4entryA, c4entryC]
    (by intro e he; simp at he; rcases he with rfl | rfl <;> rfl)
    (by
      have : ([c4entryA, c4entryC].map entryKey) =
          [(0, "Node_1"), (5, "Node_2")] := rfl
      rw [this]
      simp)
  exact ⟨h.1, h.2.2.1⟩

lemma isTransientError_locked : isTransientError "database is locked" = true := by
  decide

lemma appendEntryFuel_locked_spins (db : DBState) (entry : PyDict)
    (hok : validateEntry entry = .ok ()) :
    ∀ fuel attempt, appendEntryFuel db entry lockedStorage attempt fuel = .spinning := by
  intro fuel
  induction fuel with
  | zero => intro attempt; rfl
  | succ n ih =>
    intro attempt
    obtain ⟨h1, h2, h3, h4, _, _⟩ := validateEntry_ok_extract entry hok
    simp [appendEntryFuel, hok, h1, h2, h3, h4, PyVal.asNum, PyVal.asStr,
      lockedStorage, isTransientError_locked, ih]

def c5entry : PyDict :=
  [("timestamp", .num 1), ("node_id", .str "Node_9"),
   ("features", .listV []), ("confidence", .num 1)]

/-- C5 counterexample: against storage that stays locked, the retry
recursion of `append_entry` never resolves — there is **no** bound `N`
of attempts after which the call has completed (succeeded or failed),
refuting "retries only a bounded number of times before failing". -/
theorem appendEntry_retry_unbounded_counterexample :
    validateEntry c5entry = .ok () ∧
    ¬ ∃ N : Nat, ∀ fuel : Nat, N ≤ fuel →
        appendEntryFuel DBState.empty c5entry lockedStorage 0 fuel ≠ .spinning := by
  refine ⟨rfl, ?_⟩
  rintro ⟨N, hN⟩
  exact hN N le_rfl (appendEntryFuel_locked_spins DBState.empty c5entry rfl N 0)

/-- C5 (amended): on a retryable locked/busy storage error,
`append_entry` sleeps 100 ms and calls itself again with **no bound on
the number of retries**: the call completes exactly when some attempt
stops being transient — if the first `k` attempts are transient
failures and attempt `k` succeeds, it returns the new id after exactly
`k` back-off sleeps — and under sustained lock ("database is locked" on
every attempt) it never completes, however far the recursion is
unfolded. -/
theorem appendEntry_retries_until_first_nontransient (db : DBState)
    (entry : PyDict) (oracle : Nat → SqlOutcome) (k fuel : Nat)
    (hval : validateEntry entry = .ok ())
    (htrans : ∀ j < k, (oracle j).isTransientFailure = true)
    (hsucc : oracle k = .success)
    (hfuel : k < fuel) :
    appendEntryFuel db entry oracle 0 fuel =
      .ok { rows := db.rows.filter
              (fun r => !(r.timestamp = entryTimestamp entry ∧
                          r.nodeId = entryNodeId entry))
              ++ [appendedRow db entry],
            nextId := db.nextId + 1 } db.nextId k ∧
    (∀ f, appendEntryFuel db entry lockedStorage 0 f = .spinning) := by
  obtain ⟨h1, h2, h3, h4, _, _⟩ := validateEntry_ok_extract entry hval
  constructor
  · have main : ∀ k' attempt fuel', k' < fuel' →
        (∀ j < k', (oracle (attempt + j)).isTransientFailure = true) →
        oracle (attempt + k') = .success →
        appendEntryFuel db entry oracle attempt fuel' =
          .ok { rows := db.rows.filter
                  (fun r => !(r.timestamp = entryTimestamp entry ∧
                              r.nodeId = entryNodeId entry))
                  ++ [appendedRow db entry],
                nextId := db.nextId + 1 } db.nextId k' := by
      intro k'
      induction k' with
      | zero =>
        intro attempt fuel' hf _ hs
        obtain ⟨f, rfl⟩ := Nat.exists_eq_add_of_lt hf
        simp only [Nat.add_zero] at hs
        simp [appendEntryFuel, hval, h1, h2, h3, h4, PyVal.asNum, PyVal.asStr,
          hs, insertOrReplace, appendedRow, mkRow, Nat.add_comm]
      | succ n ihn =>
        intro attempt fuel' hf htr hs
        obtain ⟨f, rfl⟩ := Nat.exists_eq_add_of_lt hf
        have h0 := htr 0 (Nat.succ_pos n)
        have hrec := ihn (attempt + 1) (n + 1 + f) (by omega)
          (fun j hj => by
            have := htr (j + 1) (by omega)
            simpa [Nat.add_assoc, Nat.add_comm 1 j] using this)
          (by
            have : attempt + 1 + n = attempt + (n + 1) := by omega
            rw [this]; exact hs)
        simp only [Nat.add_zero] at h0
        cases hOr : oracle attempt with
        | success => rw [hOr] at h0; simp [SqlOutcome.isTransientFailure] at h0
        | integrityError m => rw [hOr] at h0; simp [SqlOutcome.isTransientFailure] at h0
        | sqlError m =>
          rw [hOr] at h0
          simp only [SqlOutcome.isTransientFailure] at h0
          simp only [appendEntryFuel, hval, h1, h2, h3, h4, PyVal.asNum,
            PyVal.asStr, Option.some_bind, hOr, h0, if_true]
          rw [hrec]
    have := main k 0 fuel hfuel (by simpa using htrans) (by simpa using hsucc)
    exact this
  · intro f
    exact appendEntryFuel_locked_spins db entry hval f 0

def c5oracle : Nat → SqlOutcome :=
  fun n => if n < 2 then .sqlError "database is locked" else .success

/-- C5 witness: the amended theorem applied to an oracle whose first two
attempts hit "database is locked" and whose third succeeds (two 100 ms
back-offs, then the insert), and to the always-locked oracle at fuel 7. -/
theorem appendEntry_retries_until_first_nontransient_witness :
    appendEntryFuel DBState.empty c5entry c5oracle 0 4 =
      .ok { rows := [{ id := 1, timestamp := 1, nodeId := "Node_9",
                       features := .listV [], confidence := 1 }],
            nextId := 2 } 1 2 ∧
    appendEntryFuel DBState.empty c5entry lockedStorage 0 7 = .spinning := by
  have h := appendEntry_retries_until_first_nontransient DBState.empty c5entry
    c5oracle 2 4 rfl (by decide) rfl (by omega)
  constructor
  · rw [h.1]; rfl
  · exact h.2 7

/-! ## Simulation consensus (`src/simulation.py`)

`Simulation.__init__` (simulation.py:23-53) sets
`threshold = num_agents // 2 + 1` over its list of `num_agents` agents;
`resolve_consensus` (simulation.py:122-149) walks the per-step
validation map, counts true votes per signature id, and on majority
fetches the entry from the ledger (`get_entry_by_id`) and pushes
`update_model_and_blacklist` to every agent.  Agents are identified by
their `node_id`; the pushed updates are recorded as an event list of
(agent, signature id) pairs, in push order. -/

/-- `threshold = num_agents // 2 + 1` (simulation.py:35). -/
def simThreshold (numAgents : Nat) : Nat := numAgents / 2 + 1

/-- `num_valid = sum(1 for valid in val_list if valid)` (simulation.py:131). -/
def trueVotes (valList : List Bool) : Nat := (valList.filter id).length

/-- `Simulation.resolve_consensus` (simulation.py:122-149): for each
`sig_id → val_list` of the validation map (a dict, hence distinct keys,
iterated in insertion order), if the true votes reach the threshold and
`get_entry_by_id` returns an entry (`if sig:`), push
`update_model_and_blacklist` once per agent.  Returns the pushed
(agent, sig_id) update events, in order. -/
def resolveConsensus (allValidations : List (Nat × List Bool))
    (agents : List String) (rows : List Row) (threshold : Nat) :
    List (String × Nat) :=
  allValidations.flatMap fun sv =>
    if threshold ≤ trueVotes sv.2 then
      match getEntryById rows sv.1 with
      | some _ => agents.map fun a => (a, sv.1)
      | none => []
    else []

lemma resolveConsensus_key_mem (a : String) (s : Nat)
    (validations : List (Nat × List Bool)) (agents : List String)
    (rows : List Row) (th : Nat)
    (h : (a, s) ∈ resolveConsensus validations agents rows th) :
    s ∈ validations.map Prod.fst := by
  simp only [resolveConsensus, List.mem_flatMap] at h
  obtain ⟨sv, hsv, hmem⟩ := h
  have hkey : s = sv.1 := by
    by_cases hth : th ≤ trueVotes sv.2
    · rw [if_pos hth] at hmem
      cases hfind : getEntryById rows sv.1 with
      | some r =>
        rw [hfind] at hmem
        obtain ⟨x, _, hx⟩ := List.mem_map.mp hmem
        exact ((Prod.ext_iff.mp hx).2).symm
      | none => rw [hfind] at hmem; simp at hmem
    · rw [if_neg hth] at hmem; simp at hmem
  rw [hkey]
  exact List.mem_map_of_mem _ hsv

lemma count_map_pair (agents : List String) (a : String) (s : Nat) :
    (agents.map fun x => (x, s)).count (a, s) = agents.count a := by
  induction agents with
  | nil => simp
  | cons b bs ih =>
    simp only [List.map_cons, List.count_cons, ih]
    by_cases h : b = a
    · subst h; simp
    · simp [h, beq_iff_eq, Prod.ext_iff]

lemma count_eq_one_of_nodup_mem {α : Type} [BEq α] [LawfulBEq α]
    {l : List α} {a : α} (hn : l.Nodup) (ha : a ∈ l) : l.count a = 1 := by
  induction l with
  | nil => simp at ha
  | cons b bs ih =>
    rcases List.mem_cons.mp ha with rfl | hbs
    · have hnot : a ∉ bs := (List.nodup_cons.mp hn).1
      simp [List.count_cons, List.count_eq_zero.mpr hnot]
    · have hne : b ≠ a := by
        rintro rfl; exact (List.nodup_cons.mp hn).1 hbs
      simp [List.count_cons, ih (List.nodup_cons.mp hn).2 hbs, hne]

lemma resolveConsensus_cons_split (hd : Nat × List Bool)
    (tl : List (Nat × List Bool)) (agents : List String) (rows : List Row)
    (th : Nat) :
    resolveConsensus (hd :: tl) agents rows th =
      resolveConsensus [hd] agents rows th ++
      resolveConsensus tl agents rows th := by
  simp [resolveConsensus]

/-- C1: for every per-step validation map (distinct signature ids, as
dict keys are) over the simulation's agents (distinct node ids), with
the constructor's `threshold = num_agents // 2 + 1`:  a signature whose
true-vote count reaches the threshold and whose entry the ledger
returns gets `update_model_and_blacklist` pushed exactly once to every
agent, and a signature whose true-vote count is below the threshold
triggers no agent update at all. -/
theorem resolve_consensus_majority_updates
    (validations : List (Nat × List Bool)) (agents : List String)
    (rows : List Row)
    (hkeys : (validations.map Prod.fst).Nodup)
    (hagents : agents.Nodup)
    (sigId : Nat) (valList : List Bool)
    (hmem : (sigId, valList) ∈ validations) :
    (simThreshold agents.length ≤ trueVotes valList →
      (getEntryById rows sigId).isSome →
      ∀ a ∈ agents,
        (resolveConsensus validations agents rows
          (simThreshold agents.length)).count (a, sigId) = 1) ∧
    (trueVotes valList < simThreshold agents.length →
      ∀ a : String,
        (a, sigId) ∉ resolveConsensus validations agents rows
          (simThreshold agents.length)) := by
  induction validations with
  | nil => simp at hmem
  | cons hd tl ih =>
    have hkey_hd : hd.1 ∉ tl.map Prod.fst := (List.nodup_cons.mp hkeys).1
    have hkeys_tl : (tl.map Prod.fst).Nodup := (List.nodup_cons.mp hkeys).2
    rcases List.mem_cons.mp hmem with heq | htl
    · -- the signature under scrutiny heads the map
      have hhd1 : hd.1 = sigId := by rw [← heq]
      have hhd2 : hd.2 = valList := by rw [← heq]
      constructor
      · intro hth hfound a ha
        rw [resolveConsensus_cons_split, List.count_append]
        have hseg : (resolveConsensus [hd] agents rows
            (simThreshold agents.length)).count (a, sigId) = 1 := by
          cases hfs : getEntryById rows sigId with
          | none => rw [hfs] at hfound; simp at hfound
          | some r =>
            simp only [resolveConsensus, List.flatMap_cons, List.flatMap_nil,
              List.append_nil, hhd1, hhd2, if_pos hth, hfs]
            rw [count_map_pair agents a sigId]
            exact count_eq_one_of_nodup_mem hagents ha
        have hrest : (resolveConsensus tl agents rows
            (simThreshold agents.length)).count (a, sigId) = 0 := by
          rw [List.count_eq_zero]
          intro hc
          exact (hhd1 ▸ hkey_hd) (resolveConsensus_key_mem a sigId tl agents rows _ hc)
        omega
      · intro hth a hc
        rw [resolveConsensus_cons_split] at hc
        rcases List.mem_append.mp hc with hseg | hrest
        · simp only [resolveConsensus, List.flatMap_cons, List.flatMap_nil,
            List.append_nil, hhd2, if_neg (not_le.mpr hth)] at hseg
          simp at hseg
        · exact (hhd1 ▸ hkey_hd) (resolveConsensus_key_mem a sigId tl agents rows _ hrest)
    · -- the signature sits in the tail of the map
      have hne : hd.1 ≠ sigId := by
        intro hcontra
        exact hkey_hd (hcontra ▸ List.mem_map_of_mem Prod.fst htl)
      have ihr := ih hkeys_tl htl
      constructor
      · intro hth hfound a ha
        rw [resolveConsensus_cons_split, List.count_append]
        have hseg : (resolveConsensus [hd] agents rows
            (simThreshold agents.length)).count (a, sigId) = 0 := by
          rw [List.count_eq_zero]
          intro hc
          have hk := resolveConsensus_key_mem a sigId [hd] agents rows _ hc
          simp only [List.map_cons, List.map_nil, List.mem_singleton] at hk
          exact hne hk.symm
        rw [hseg, ihr.1 hth hfound a ha]
      · intro hth a hc
        rw [resolveConsensus_cons_split] at hc
        rcases List.mem_append.mp hc with hseg | hrest
        · have hk := resolveConsensus_key_mem a sigId [hd] agents rows _ hseg
          simp only [List.map_cons, List.map_nil, List.mem_singleton] at hk
          exact hne hk.symm
        · exact ihr.2 hth a hrest

def c1agents : List String :=
  ["Node_1", "Node_2", "Node_3", "Node_4", "Node_5"]

def c1rows : List Row :=
  [{ id := 1, timestamp := 0, nodeId := "Node_9",
     features := .listV [], confidence := 1 }]

/-- C1 witness: the spec's own example over 5 agents (threshold 3):
`{1: [T,T,F,T,T]}` (4 true votes, entry 1 present) updates each agent
exactly once, and `{1: [T,F,F,F,F]}` (1 true vote) updates none. -/
theorem resolve_consensus_majority_updates_witness :
    (resolveConsensus [(1, [true, true, false, true, true])] c1agents c1rows
      (simThreshold c1agents.length)).count ("Node_1", 1) = 1 ∧
    ("Node_1", 1) ∉ resolveConsensus [(1, [true, false, false, false, false])]
      c1agents c1rows (simThreshold c1agents.length) := by
  constructor
  · exact (resolve_consensus_majority_updates
      [(1, [true, true, false, true, true])] c1agents c1rows
      (by decide) (by decide) 1 [true, true, false, true, true]
      (by decide)).1 (by decide) (by decide) "Node_1" (by decide)
  · exact (resolve_consensus_majority_updates
      [(1, [true, false, false, false, false])] c1agents c1rows
      (by decide) (by decide) 1 [true, false, false, false, false]
      (by decide)).2 (by decide) "Node_1"

/-! ## Agent polling (`src/decentralized-ai-simulation/src/core/agents.py`)

`AnomalyAgent.poll_and_validate` (agents.py:241-277) fetches
`get_new_entries(last_seen_id)`, validates each non-self entry in
order, then — if anything was fetched — re-reads the whole ledger and
advances `last_seen_id` to the maximum id found there.  The whole body
sits in a `try`, whose `except` returns the empty list, leaving
`last_seen_id` untouched.  Per-entry validation outcomes (random draws,
cache state) are abstracted into the oracle `valf`; a storage failure
inside either ledger call is injected through the two `fail*` flags. -/

structure AgentPollState where
  nodeId : String
  lastSeenId : Nat

/-- The `for entry in new_entries` loop (agents.py:252-265): skip
self-generated signatures, validate the rest in order into
`ValidationResult(signature_id, is_valid)` pairs. -/
def collectValidations (selfId : String) (valf : Row → Bool) :
    List Row → List (Nat × Bool)
  | [] => []
  | r :: rs =>
    if r.nodeId = selfId then collectValidations selfId valf rs
    else (r.id, valf r) :: collectValidations selfId valf rs

/-- `max(e.get('id', 0) for e in all_entries)` (agents.py:271): over
natural ids this equals a fold of `max` seeded with 0. -/
def maxIdOf (rows : List Row) : Nat :=
  rows.foldl (fun m r => max m r.id) 0

/-- The `try` body of `poll_and_validate`. -/
def pollBody (db : DBState) (ag : AgentPollState) (valf : Row → Bool)
    (failFetch failRead : Bool) :
    Except String (List (Nat × Bool) × Nat) :=
  match (if failFetch then .error "database error"
         else .ok (getNewEntries db ag.lastSeenId) :
           Except String (List Row)) with
  | .error e => .error e
  | .ok newEntries =>
    let validations := collectValidations ag.nodeId valf newEntries
    if newEntries.isEmpty then .ok (validations, ag.lastSeenId)
    else
      match (if failRead then .error "database error"
             else .ok (readLedger db) : Except String (List Row)) with
      | .error e => .error e
      | .ok allEntries =>
        if allEntries.isEmpty then .ok (validations, ag.lastSeenId)
        else .ok (validations, maxIdOf allEntries)

/-- `AnomalyAgent.poll_and_validate` (agents.py:241-277): the body's
result, with the catch-all `except` degrading any internal failure to
`([], last_seen_id unchanged)`. -/
def pollAndValidate (db : DBState) (ag : AgentPollState)
    (valf : Row → Bool) (failFetch failRead : Bool) :
    List (Nat × Bool) × Nat :=
  match pollBody db ag valf failFetch failRead with
  | .ok r => r
  | .error _ => ([], ag.lastSeenId)

lemma collectValidations_eq_filter_map (selfId : String) (valf : Row → Bool)
    (rows : List Row) :
    collectValidations selfId valf rows =
      (rows.filter fun r => !(r.nodeId == selfId)).map fun r => (r.id, valf r) := by
  induction rows with
  | nil => rfl
  | cons r rs ih =>
    by_cases h : r.nodeId = selfId
    · simp [collectValidations, h, ih]
    · simp [collectValidations, h, ih]

lemma le_maxIdOf_aux (rows : List Row) :
    ∀ acc : Nat, acc ≤ rows.foldl (fun m r => max m r.id) acc ∧
      ∀ r ∈ rows, r.id ≤ rows.foldl (fun m r => max m r.id) acc := by
  induction rows with
  | nil => intro acc; simp
  | cons x xs ih =>
    intro acc
    refine ⟨?_, ?_⟩
    · calc acc ≤ max acc x.id := le_max_left _ _
        _ ≤ _ := (ih (max acc x.id)).1
    · intro r hr
      rcases List.mem_cons.mp hr with rfl | hxs
      · calc r.id ≤ max acc r.id := le_max_right _ _
          _ ≤ _ := (ih (max acc r.id)).1
      · exact (ih (max acc x.id)).2 r hxs

lemma le_maxIdOf (rows : List Row) : ∀ r ∈ rows, r.id ≤ maxIdOf rows :=
  (le_maxIdOf_aux rows 0).2

lemma maxIdOf_mem_aux (rows : List Row) :
    ∀ acc : Nat, rows.foldl (fun m r => max m r.id) acc = acc ∨
      rows.foldl (fun m r => max m r.id) acc ∈ rows.map Row.id := by
  induction rows with
  | nil => intro acc; left; rfl
  | cons x xs ih =>
    intro acc
    rcases ih (max acc x.id) with h | h
    · rcases max_cases acc x.id with ⟨hm, _⟩ | ⟨hm, _⟩
      · left; rw [List.foldl_cons]; exact h.trans hm
      · right; rw [List.foldl_cons, h, hm]; simp
    · right
      rw [List.foldl_cons]
      simpa using Or.inr h

/-- When the ledger is non-empty, the fold attains an actual id: the
new high-water mark is the maximum id present in the whole ledger. -/
lemma maxIdOf_mem (rows : List Row) (h : rows.isEmpty = false) :
    maxIdOf rows ∈ rows.map Row.id := by
  rcases maxIdOf_mem_aux rows 0 with h0 | hm
  · cases rows with
    | nil => simp at h
    | cons x xs =>
      have hx := (le_maxIdOf_aux (x :: xs) 0).2 x (by simp)
      rw [h0] at hx
      rw [maxIdOf, h0]
      exact List.mem_map.mpr ⟨x, by simp, by omega⟩
  · exact hm

lemma rows_nonempty_of_new_entries (db : DBState) (lastSeen : Nat)
    (h : (getNewEntries db lastSeen).isEmpty = false) :
    db.rows.isEmpty = false := by
  cases hrows : db.rows with
  | nil => rw [getNewEntries, hrows] at h; simp at h
  | cons x xs => rfl

/-- C3: whenever `poll_and_validate` finds at least one ledger entry
with id above `last_seen_id`, it validates exactly the
non-self-authored ones among them (in order), then sets `last_seen_id`
to the maximum id over the **entire** ledger — an id that bounds every
row of the ledger and is attained by one of them, not merely the
maximum among the entries just processed; and a storage failure in
either ledger call never escapes: the call degrades to the empty
result list with `last_seen_id` unchanged. -/
theorem poll_and_validate_global_max (db : DBState) (ag : AgentPollState)
    (valf : Row → Bool)
    (hne : (getNewEntries db ag.lastSeenId).isEmpty = false) :
    pollAndValidate db ag valf false false =
      (((getNewEntries db ag.lastSeenId).filter
          fun r => !(r.nodeId == ag.nodeId)).map (fun r => (r.id, valf r)),
        maxIdOf (readLedger db)) ∧
    (∀ r ∈ readLedger db, r.id ≤ maxIdOf (readLedger db)) ∧
    maxIdOf (readLedger db) ∈ (readLedger db).map Row.id ∧
    (∀ failFetch failRead : Bool, failFetch = true ∨ failRead = true →
      pollAndValidate db ag valf failFetch failRead = ([], ag.lastSeenId)) := by
  have hrows : db.rows.isEmpty = false :=
    rows_nonempty_of_new_entries db ag.lastSeenId hne
  refine ⟨?_, le_maxIdOf _, maxIdOf_mem _ hrows, ?_⟩
  · simp [pollAndValidate, pollBody, hne, readLedger, hrows,
      collectValidations_eq_filter_map]
  · intro failFetch failRead hor
    rcases hor with rfl | rfl
    · simp [pollAndValidate, pollBody]
    · cases failFetch with
      | true => simp [pollAndValidate, pollBody]
      | false => simp [pollAndValidate, pollBody, hne]

def c3db : DBState :=
  { rows := [{ id := 1, timestamp := 0, nodeId := "Node_1",
               features := .listV [], confidence := 1 },
             { id := 2, timestamp := 0, nodeId := "Node_2",
               features := .listV [], confidence := 1 }],
    nextId := 3 }

def c3agent : AgentPollState := { nodeId := "Node_1", lastSeenId := 0 }

/-- C3 witness: a two-row ledger seen by `Node_1` from high-water mark
0: its own row is skipped, `Node_2`'s row is validated, and the mark
advances to the global maximum 2; either injected storage failure
degrades to the empty result. -/
theorem poll_and_validate_global_max_witness :
    pollAndValidate c3db c3agent (fun _ => true) false false =
      ([(2, true)], 2) ∧
    pollAndValidate c3db c3agent (fun _ => true) true false = ([], 0) ∧
    pollAndValidate c3db c3agent (fun _ => true) false true = ([], 0) := by
  have h := poll_and_validate_global_max c3db c3agent (fun _ => true) (by decide)
  refine ⟨?_, ?_, ?_⟩
  · rw [h.1]; rfl
  · exact h.2.2.2 true false (Or.inl rfl)
  · exact h.2.2.2 false true (Or.inr rfl)

/-! ## Traffic window (`src/decentralized-ai-simulation/src/core/agents/agent_manager.py`)

`AnomalyAgent.__init__` (agent_manager.py:57-89) gives each agent
`recent_data = BoundedList(max_size=1000)`; `BoundedList`
(agent_manager.py:458-517) wraps a `deque(maxlen=max_size)`: appending
to a full deque discards the oldest (leftmost) item, and `extend`
additionally pops from the left while over capacity (a no-op for the
deque, which never exceeds its maxlen).  `generate_traffic`
(agent_manager.py:104-145) draws `batch_size` samples, optionally
overwrites one with the injected value 500, and extends `recent_data`
with **all** of them.  The Gaussian draws, the injection coin and the
injection index are oracle inputs. -/

/-- The last `n` elements of a list (what a `deque(maxlen=n)` retains). -/
def takeLast (n : Nat) (l : List ℚ) : List ℚ := l.drop (l.length - n)

/-- `deque.append` under `maxlen`: discard the leftmost element when
already at capacity. -/
def dequeAppend (maxSize : Nat) (d : List ℚ) (x : ℚ) : List ℚ :=
  if d.length < maxSize then d ++ [x] else d.tail ++ [x]

/-- The `while len(self._data) > self.max_size: self._data.popleft()`
loop of `BoundedList.extend` (agent_manager.py:492-494). -/
def popExcess (maxSize : Nat) : List ℚ → List ℚ
  | [] => []
  | x :: xs =>
    if maxSize < (x :: xs).length then popExcess maxSize xs else x :: xs

structure BoundedList where
  maxSize : Nat
  data : List ℚ

/-- `BoundedList.extend` (agent_manager.py:484-494): `deque.extend`
(element-wise appends under `maxlen`) followed by the left-popping
loop. -/
def BoundedList.extend (bl : BoundedList) (items : List ℚ) : BoundedList :=
  { bl with data := popExcess bl.maxSize (items.foldl (dequeAppend bl.maxSize) bl.data) }

structure TrafficAgentState where
  recentData : BoundedList

/-- A fresh agent's window (`BoundedList(max_size=1000)`,
agent_manager.py:80-82). -/
def freshTrafficAgent : TrafficAgentState :=
  { recentData := { maxSize := 1000, data := [] } }

/-- One oracle-resolved call to `generate_traffic`: the Gaussian batch,
whether an anomaly is injected (`force_anomaly or random.random() <
0.05`), and the injection index (`random.randint(0, batch_size-1)`). -/
structure TrafficCall where
  samples : List ℚ
  inject : Bool
  idx : Nat

/-- `AnomalyAgent.generate_traffic` (agent_manager.py:104-145): inject
`500` at the drawn index when requested, extend `recent_data` with the
whole batch, return the batch. -/
def generateTraffic (st : TrafficAgentState) (c : TrafficCall) :
    TrafficAgentState × List ℚ :=
  let data := if c.inject then c.samples.set c.idx 500 else c.samples
  ({ recentData := st.recentData.extend data }, data)

/-- A sequence of `generate_traffic` calls, collecting every returned
batch. -/
def runTraffic : TrafficAgentState → List TrafficCall →
    TrafficAgentState × List (List ℚ)
  | st, [] => (st, [])
  | st, c :: cs =>
    let step := generateTraffic st c
    let rest := runTraffic step.1 cs
    (rest.1, step.2 :: rest.2)

lemma takeLast_of_le (cap : Nat) (l : List ℚ) (h : l.length ≤ cap) :
    takeLast cap l = l := by
  simp [takeLast, Nat.sub_eq_zero_of_le h]

lemma takeLast_length_le (cap : Nat) (l : List ℚ) :
    (takeLast cap l).length ≤ cap := by
  simp only [takeLast, List.length_drop]
  omega

lemma takeLast_cons_of_le (cap : Nat) (y : ℚ) (l : List ℚ)
    (h : cap ≤ l.length) : takeLast cap (y :: l) = takeLast cap l := by
  simp only [takeLast, List.length_cons]
  have harith : l.length + 1 - cap = (l.length - cap) + 1 := by omega
  rw [harith, List.drop_succ_cons]

lemma takeLast_append_of_le (cap : Nat) (a s : List ℚ)
    (h : cap ≤ s.length) : takeLast cap (a ++ s) = takeLast cap s := by
  induction a with
  | nil => rfl
  | cons y a' ih =>
    rw [List.cons_append, takeLast_cons_of_le cap y (a' ++ s)
      (by simp; omega), ih]

lemma takeLast_takeLast_append (cap : Nat) (l r : List ℚ) :
    takeLast cap (takeLast cap l ++ r) = takeLast cap (l ++ r) := by
  by_cases h : l.length ≤ cap
  · rw [takeLast_of_le cap l h]
  · have hlt : cap < l.length := lt_of_not_ge h
    have hsplit : l = l.take (l.length - cap) ++ l.drop (l.length - cap) :=
      (List.take_append_drop _ l).symm
    have hdl : (l.drop (l.length - cap)).length = cap := by
      rw [List.length_drop]; omega
    calc takeLast cap (takeLast cap l ++ r)
        = takeLast cap (l.drop (l.length - cap) ++ r) := rfl
      _ = takeLast cap (l.take (l.length - cap) ++ (l.drop (l.length - cap) ++ r)) :=
          (takeLast_append_of_le cap (l.take (l.length - cap))
            (l.drop (l.length - cap) ++ r)
            (by rw [List.length_append, hdl]; omega)).symm
      _ = takeLast cap (l ++ r) := by rw [← List.append_assoc, ← hsplit]

lemma foldl_dequeAppend_eq_takeLast (cap : Nat) (hpos : 0 < cap) :
    ∀ (xs d : List ℚ), d.length ≤ cap →
      xs.foldl (dequeAppend cap) d = takeLast cap (d ++ xs) := by
  intro xs
  induction xs with
  | nil =>
    intro d h
    simp only [List.foldl_nil, List.append_nil]
    exact (takeLast_of_le cap d h).symm
  | cons x xs ih =>
    intro d h
    rw [List.foldl_cons]
    by_cases hlen : d.length < cap
    · rw [dequeAppend, if_pos hlen, ih (d ++ [x]) (by simp; omega)]
      simp
    · have hcap : d.length = cap := by omega
      rw [dequeAppend, if_neg hlen, ih (d.tail ++ [x]) (by simp [List.length_tail]; omega)]
      cases d with
      | nil => simp at hcap; omega
      | cons y d' =>
        simp only [List.tail_cons, List.cons_append]
        rw [takeLast_cons_of_le cap y (d' ++ x :: xs) (by simp at hcap ⊢; omega)]
        simp

lemma extend_eq_takeLast (bl : BoundedList) (xs : List ℚ)
    (hpos : 0 < bl.maxSize) (h : bl.data.length ≤ bl.maxSize) :
    (bl.extend xs).data = takeLast bl.maxSize (bl.data ++ xs) := by
  rw [BoundedList.extend]
  rw [foldl_dequeAppend_eq_takeLast bl.maxSize hpos xs bl.data h]
  have hle := takeLast_length_le bl.maxSize (bl.data ++ xs)
  generalize takeLast bl.maxSize (bl.data ++ xs) = t at *
  induction t with
  | nil => rfl
  | cons a as _ =>
    rw [popExcess, if_neg (by simp at hle ⊢; omega)]

lemma runTraffic_window : ∀ (calls : List TrafficCall) (st : TrafficAgentState),
    st.recentData.maxSize = 1000 →
    st.recentData.data.length ≤ 1000 →
    (runTraffic st calls).1.recentData.maxSize = 1000 ∧
    (runTraffic st calls).1.recentData.data =
      takeLast 1000 (st.recentData.data ++ (runTraffic st calls).2.flatten) := by
  intro calls
  induction calls with
  | nil =>
    intro st hmax hlen
    exact ⟨hmax, by
      simp only [runTraffic, List.flatten_nil, List.append_nil]
      exact (takeLast_of_le 1000 _ hlen).symm⟩
  | cons c cs ih =>
    intro st hmax hlen
    have hext : (generateTraffic st c).1.recentData.data =
        takeLast 1000 (st.recentData.data ++ (generateTraffic st c).2) := by
      rw [generateTraffic]
      simp only
      rw [extend_eq_takeLast st.recentData _ (by omega) (by omega), hmax]
    have hextmax : (generateTraffic st c).1.recentData.maxSize = 1000 := by
      rw [generateTraffic]; simpa [BoundedList.extend] using hmax
    have hextlen : (generateTraffic st c).1.recentData.data.length ≤ 1000 := by
      rw [hext]; exact takeLast_length_le _ _
    obtain ⟨hm, hd⟩ := ih (generateTraffic st c).1 hextmax hextlen
    refine ⟨by simpa [runTraffic] using hm, ?_⟩
    show (runTraffic (generateTraffic st c).1 cs).1.recentData.data = _
    rw [hd, hext, takeLast_takeLast_append]
    simp [runTraffic, List.flatten_cons, List.append_assoc]

/-- C6: for every sequence of `generate_traffic` calls on one agent
(arbitrary Gaussian draws, injection coins and indices), the final
`recent_data` window is exactly the last 1000 of all generated samples
in generation order — so every sample enters the window, the length
never exceeds the 1000 cap, and eviction is oldest-first. -/
theorem generate_traffic_bounded_window (calls : List TrafficCall) :
    (runTraffic freshTrafficAgent calls).1.recentData.data =
      takeLast 1000 ((runTraffic freshTrafficAgent calls).2.flatten) ∧
    (runTraffic freshTrafficAgent calls).1.recentData.data.length ≤ 1000 := by
  obtain ⟨_, hd⟩ := runTraffic_window calls freshTrafficAgent rfl (by simp [freshTrafficAgent])
  refine ⟨?_, ?_⟩
  · simpa [freshTrafficAgent] using hd
  · rw [hd]; exact takeLast_length_le _ _

/-! ## Atomic file writer (`src/decentralized-ai-simulation/src/utils/file_manager.py`)

`FileManager.safe_write_file` (file_manager.py:72-164).  The filesystem
is a map from path to content; `with_suffix(suffix + '.backup')` /
`(suffix + '.tmp')` amount to appending `".backup"` / `".tmp"` to the
path.  The failure injection points mirror the source's exception
sites: during the backup copy (caught, logged, write continues),
during the temporary-file write, and during content validation after
the temporary file is fully written; `temp_path.replace(file_path)` is
the atomic rename.  On any body failure the handler removes the
temporary file and copies the backup (when one exists) back onto the
destination; the `finally` block removes the backup only when
`write_successful` was set after the rename. -/

/-- A filesystem: which content, if any, each path holds. -/
def FS : Type := String → Option String

/-- Writing (creating or overwriting) one file. -/
def fsSet (fs : FS) (p : String) (c : String) : FS :=
  fun q => if q = p then some c else fs q

/-- `Path.unlink` — removing one file. -/
def fsErase (fs : FS) (p : String) : FS :=
  fun q => if q = p then none else fs q

/-- Where `safe_write_file` can be made to fail, relative to the atomic
rename (`noFail` = the write runs to completion). -/
inductive FailAt : Type where
  | noFail
  | atBackup
  | atTempWrite
  | atValidate
deriving DecidableEq

/-- `FileManager.safe_write_file` (file_manager.py:72-164): returns the
resulting filesystem and whether the write succeeded. -/
def safeWriteFile (fs : FS) (path content : String) (backup : Bool)
    (failAt : FailAt) : FS × Bool :=
  let backupPath := path ++ ".backup"
  let tempPath := path ++ ".tmp"
  -- backup creation (file_manager.py:104-114): only when requested and
  -- the destination exists; a failed copy is a logged warning, and the
  -- stale backup removed before it counts as gone
  let backupStep : FS × Bool :=
    if backup ∧ (fs path).isSome then
      if failAt = .atBackup then (fsErase fs backupPath, false)
      else (fsSet fs backupPath ((fs path).getD ""), true)
    else (fs, false)
  let fs1 := backupStep.1
  let backupMade := backupStep.2
  -- the exception handler (file_manager.py:140-156): drop the temp
  -- file, restore the destination from the backup when one exists
  let recover : FS → FS := fun f =>
    let f1 := fsErase f tempPath
    if backupMade then fsSet f1 path ((f1 backupPath).getD "") else f1
  if failAt = .atTempWrite then
    (recover fs1, false)
  else
    let fs2 := fsSet fs1 tempPath content
    if failAt = .atValidate then
      (recover fs2, false)
    else
      -- `temp_path.replace(file_path)` — the atomic rename
      let fs3 := fsSet (fsErase fs2 tempPath) path content
      -- `finally`: the backup is removed only after full success
      let fs4 := if backupMade then fsErase fs3 backupPath else fs3
      (fs4, true)

lemma append_ne_self (s t : String) (h : t ≠ "") : s ≠ s ++ t := by
  intro hcontra
  have hlen : s.length = s.length + t.length := by
    conv_lhs => rw [hcontra]
    exact String.length_append s t
  have : t.length = 0 := by omega
  exact h (String.ext (by simpa [String.length] using List.length_eq_zero.mp this))

lemma backup_ne_tmp (s : String) : s ++ ".backup" ≠ s ++ ".tmp" := by
  intro h
  have hlen := congrArg String.length h
  rw [String.length_append, String.length_append] at hlen
  have h7 : ".backup".length = 7 := by decide
  have h4 : ".tmp".length = 4 := by decide
  omega

/-- C7: when `safe_write_file` fails before the atomic rename — during
the temp-file write, or during content validation after the temp file
is fully written — a pre-existing destination file keeps exactly its
old content, and the backup file (when backups were requested) still
holds that content afterwards; the backup is removed only on the fully
successful run, which installs the new content and reports success. -/
theorem safe_write_file_rollback (fs : FS) (path content c0 : String)
    (backup : Bool) (hc0 : fs path = some c0) :
    (∀ failAt, failAt = .atTempWrite ∨ failAt = .atValidate →
      (safeWriteFile fs path content backup failAt).1 path = some c0 ∧
      (safeWriteFile fs path content backup failAt).2 = false) ∧
    (backup = true → ∀ failAt, failAt = .atTempWrite ∨ failAt = .atValidate →
      (safeWriteFile fs path content backup failAt).1 (path ++ ".backup") =
        some c0) ∧
    (backup = true →
      (safeWriteFile fs path content backup .noFail).1 path = some content ∧
      (safeWriteFile fs path content backup .noFail).1 (path ++ ".backup") =
        none ∧
      (safeWriteFile fs path content backup .noFail).2 = true) := by
  have hpb : path ≠ path ++ ".backup" := append_ne_self path ".backup" (by decide)
  have hpt : path ≠ path ++ ".tmp" := append_ne_self path ".tmp" (by decide)
  have hbt := backup_ne_tmp path
  have hbp := hpb.symm
  have htp := hpt.symm
  have htb := hbt.symm
  refine ⟨?_, ?_, ?_⟩
  · intro failAt hfa
    rcases hfa with rfl | rfl <;> cases backup <;>
      simp [safeWriteFile, fsSet, fsErase, hc0, hpb, hpt, hbt, hbp, htp, htb]
  · rintro rfl failAt hfa
    rcases hfa with rfl | rfl <;>
      simp [safeWriteFile, fsSet, fsErase, hc0, hpb, hpt, hbt, hbp, htp, htb]
  · rintro rfl
    simp [safeWriteFile, fsSet, fsErase, hc0, hpb, hpt, hbt, hbp, htp, htb]

def c7fs : FS := fun q => if q = "data.json" then some "old" else none

/-- C7 witness: the theorem applied to a filesystem holding
`data.json ↦ "old"`, failing after the temp file is written but before
the rename, and once running to completion. -/
theorem safe_write_file_rollback_witness :
    (safeWriteFile c7fs "data.json" "new" true .atValidate).1 "data.json" =
      some "old" ∧
    (safeWriteFile c7fs "data.json" "new" true .atValidate).1
      "data.json.backup" = some "old" ∧
    (safeWriteFile c7fs "data.json" "new" true .noFail).1 "data.json" =
      some "new" ∧
    (safeWriteFile c7fs "data.json" "new" true .noFail).1
      "data.json.backup" = none := by
  have h := safe_write_file_rollback c7fs "data.json" "new" "old" true rfl
  exact ⟨(h.1 .atValidate (Or.inr rfl)).1,
         h.2.1 rfl .atValidate (Or.inr rfl),
         (h.2.2 rfl).1, (h.2.2 rfl).2.1⟩

/-! ## 3D position mapper (`src/backend/data_transformers.py`)

`PositionMapper` (data_transformers.py:80-258).  Positions live in an
insertion-ordered dict `agent_positions : node_id → Vector3D`; the
float geometry is embedded over `ℝ`.  `time.time()`, the process-seeded
`hash(node_id) % 1000`, the `rng.uniform(-10, 10)` draws for new agents
and the Gaussian jitter of the spherical layout are oracle inputs. -/

structure Vec3 where
  x : ℝ
  y : ℝ
  z : ℝ

/-- `math.sqrt(v.x**2 + v.y**2 + v.z**2)` — distance from the origin. -/
noncomputable def dist3 (v : Vec3) : ℝ :=
  Real.sqrt (v.x ^ 2 + v.y ^ 2 + v.z ^ 2)

/-- The fields `update_positions_from_simulation` reads off an agent:
its node id and its optional `trust_score` attribute
(`getattr(agent, 'trust_score', 0.5)`). -/
structure MapAgent where
  nodeId : String
  trustScore : Option ℝ

/-- The position dict: insertion-ordered association list. -/
abbrev Positions := List (String × Vec3)

/-- `self.agent_positions[node_id]`. -/
def posGet (pos : Positions) (k : String) : Option Vec3 :=
  pos.lookup k

/-- `self.agent_positions[node_id] = v` — dict assignment: replace in
place if present, append otherwise. -/
def posSet : Positions → String → Vec3 → Positions
  | [], k, v => [(k, v)]
  | (k', v') :: rest, k, v =>
    if k' = k then (k', v) :: rest else (k', v') :: posSet rest k v

/-- The environment of one `update_positions_from_simulation` call. -/
structure PosEnv where
  time : ℝ
  hashMod : String → ℕ
  uniformDraws : ℕ → ℝ × ℝ × ℝ
  jitter : ℕ → ℝ × ℝ × ℝ

/-- One point of `initialize_spherical_layout`
(data_transformers.py:110-125): Fibonacci-sphere placement plus
per-axis Gaussian jitter. -/
noncomputable def sphericalPos (env : PosEnv) (n i : ℕ) (radius : ℝ) : Vec3 :=
  let phi := Real.arccos (2 * ((i : ℝ) / n) - 1)
  let theta := Real.pi * (1 + Real.sqrt 5) * (i : ℝ)
  { x := radius * Real.sin phi * Real.cos theta + (env.jitter i).1,
    y := radius * Real.sin phi * Real.sin theta + (env.jitter i).2.1,
    z := radius * Real.cos phi + (env.jitter i).2.2 }

/-- `initialize_spherical_layout` (data_transformers.py:94-127): on a
non-empty agent list, clear the dict and place every agent. -/
noncomputable def initializeSphericalLayout (env : PosEnv)
    (agents : List MapAgent) (radius : ℝ) (st : Positions) : Positions :=
  if agents.isEmpty then st
  else
    agents.enum.foldl
      (fun pos ia => posSet pos ia.2.nodeId (sphericalPos env agents.length ia.1 radius))
      []

/-- The radial clamp of data_transformers.py:246-256: `max_distance =
15.0`; a position farther out is rescaled by `max_distance / distance`.
-/
noncomputable def clamp15 (newPos : Vec3) : Vec3 :=
  if 15 < dist3 newPos then
    { x := newPos.x * (15 / dist3 newPos), y := newPos.y * (15 / dist3 newPos),
      z := newPos.z * (15 / dist3 newPos) }
  else newPos

/-- The per-agent movement of data_transformers.py:227-258: sine/cosine
drift scaled by `(1 - trust) * 0.1`, then the radial clamp to the
15-unit bounding sphere. -/
noncomputable def moveAndClamp (env : PosEnv) (a : MapAgent)
    (currentPos : Vec3) : Vec3 :=
  let trust := a.trustScore.getD (1 / 2)
  let movementFactor := (1 - trust) * (1 / 10)
  let timeOffset : ℝ := env.hashMod a.nodeId
  let mx := Real.sin (env.time * (1 / 10) + timeOffset) * movementFactor
  let my := Real.cos (env.time * (3 / 20) + timeOffset) * movementFactor
  let mz := Real.sin (env.time * (2 / 25) + timeOffset * (7 / 10)) * movementFactor
  clamp15 { x := currentPos.x + mx, y := currentPos.y + my,
            z := currentPos.z + mz }

/-- The body of the `for agent in agents` loop of
`update_positions_from_simulation` (data_transformers.py:217-258): an
agent absent from the dict gets the next `uniform(-10, 10)` triple —
with **no clamp** — and the draw counter advances; a present agent is
moved and clamped. -/
noncomputable def positionStep (env : PosEnv) (acc : Positions × ℕ)
    (a : MapAgent) : Positions × ℕ :=
  match acc.1.lookup a.nodeId with
  | none =>
      let d := env.uniformDraws acc.2
      (posSet acc.1 a.nodeId { x := d.1, y := d.2.1, z := d.2.2 }, acc.2 + 1)
  | some currentPos =>
      (posSet acc.1 a.nodeId (moveAndClamp env a currentPos), acc.2)

/-- `PositionMapper.update_positions_from_simulation`
(data_transformers.py:203-258): an empty dict delegates to the
spherical layout; otherwise every agent is processed in order against
the mutating dict. -/
noncomputable def updatePositionsFromSimulation (env : PosEnv)
    (agents : List MapAgent) (st : Positions) : Positions :=
  if st.isEmpty then initializeSphericalLayout env agents 10 st
  else (agents.foldl (positionStep env) (st, 0)).1

lemma dist3_nonneg (v : Vec3) : 0 ≤ dist3 v := Real.sqrt_nonneg _

/-- The radial clamp is exact: scaling a vector farther than 15 from
the origin by `15 / dist` lands it at distance exactly 15. -/
lemma sqrt_scale_eq (a b c S : ℝ) (hS : Real.sqrt (a ^ 2 + b ^ 2 + c ^ 2) = S)
    (hpos : 0 < S) :
    Real.sqrt ((a * (15 / S)) ^ 2 + (b * (15 / S)) ^ 2 + (c * (15 / S)) ^ 2)
      = 15 := by
  have hc : (0 : ℝ) ≤ 15 / S := by positivity
  have key : (a * (15 / S)) ^ 2 + (b * (15 / S)) ^ 2 + (c * (15 / S)) ^ 2 =
      (15 / S) ^ 2 * (a ^ 2 + b ^ 2 + c ^ 2) := by ring
  rw [key, Real.sqrt_mul (sq_nonneg _), Real.sqrt_sq hc, hS]
  field_simp

lemma dist3_scaled (v : Vec3) (h : 15 < dist3 v) :
    dist3 { x := v.x * (15 / dist3 v), y := v.y * (15 / dist3 v),
            z := v.z * (15 / dist3 v) } = 15 := by
  have hpos : (0 : ℝ) < dist3 v := lt_trans (by norm_num) h
  exact sqrt_scale_eq v.x v.y v.z (dist3 v) rfl hpos

lemma clamp15_le (v : Vec3) : dist3 (clamp15 v) ≤ 15 := by
  rw [clamp15]
  split
  case isTrue h => exact le_of_eq (dist3_scaled v h)
  case isFalse h => exact le_of_not_lt h

lemma moveAndClamp_le (env : PosEnv) (a : MapAgent) (p : Vec3) :
    dist3 (moveAndClamp env a p) ≤ 15 := by
  rw [moveAndClamp]
  exact clamp15_le _

lemma posSet_lookup_self (pos : Positions) (k : String) (v : Vec3) :
    (posSet pos k v).lookup k = some v := by
  induction pos with
  | nil => simp [posSet, List.lookup]
  | cons kv rest ih =>
    obtain ⟨k', v'⟩ := kv
    by_cases h : k' = k
    · subst h; simp [posSet, List.lookup]
    · have hkk : (k == k') = false := beq_eq_false_iff_ne.mpr (Ne.symm h)
      simp [posSet, h, List.lookup, hkk, ih]

lemma posSet_lookup_ne (pos : Positions) (k k' : String) (v : Vec3)
    (h : k' ≠ k) : (posSet pos k v).lookup k' = pos.lookup k' := by
  have hkk : (k' == k) = false := beq_eq_false_iff_ne.mpr h
  induction pos with
  | nil => simp [posSet, List.lookup, hkk]
  | cons kv rest ih =>
    obtain ⟨k0, v0⟩ := kv
    by_cases h0 : k0 = k
    · subst h0
      simp [posSet, List.lookup, hkk]
    · cases hbk : (k' == k0) <;>
        simp [posSet, if_neg h0, List.lookup, hbk, ih]

lemma positionStep_lookup_other (env : PosEnv) (acc : Positions × ℕ)
    (b : MapAgent) (k : String) (h : b.nodeId ≠ k) :
    ((positionStep env acc b).1).lookup k = acc.1.lookup k := by
  rw [positionStep]
  cases acc.1.lookup b.nodeId <;> simp [posSet_lookup_ne _ _ _ _ (Ne.symm h)]

lemma foldl_positionStep_frozen (env : PosEnv) :
    ∀ (agents : List MapAgent) (acc : Positions × ℕ) (k : String),
      k ∉ agents.map MapAgent.nodeId →
      ((agents.foldl (positionStep env) acc).1).lookup k = acc.1.lookup k := by
  intro agents
  induction agents with
  | nil => intro acc k _; rfl
  | cons b bs ih =>
    intro acc k hk
    simp only [List.map_cons, List.mem_cons, not_or] at hk
    rw [List.foldl_cons, ih (positionStep env acc b) k hk.2,
      positionStep_lookup_other env acc b k (fun h => hk.1 h.symm)]

lemma foldl_positionStep_existing (env : PosEnv) :
    ∀ (agents : List MapAgent) (acc : Positions × ℕ) (a : MapAgent) (p : Vec3),
      a ∈ agents →
      (agents.map MapAgent.nodeId).Nodup →
      acc.1.lookup a.nodeId = some p →
      ((agents.foldl (positionStep env) acc).1).lookup a.nodeId =
        some (moveAndClamp env a p) := by
  intro agents
  induction agents with
  | nil => intro acc a p h; simp at h
  | cons b bs ih =>
    intro acc a p hmem hnodup hp
    have hnodup' : b.nodeId ∉ bs.map MapAgent.nodeId ∧
        (bs.map MapAgent.nodeId).Nodup := by
      rw [List.map_cons, List.nodup_cons] at hnodup
      exact hnodup
    rcases List.mem_cons.mp hmem with rfl | hbs
    · rw [List.foldl_cons, foldl_positionStep_frozen env bs _ _ hnodup'.1]
      rw [positionStep, hp]
      exact posSet_lookup_self _ _ _
    · have hne : b.nodeId ≠ a.nodeId := by
        intro hcontra
        exact hnodup'.1 (hcontra ▸ List.mem_map_of_mem MapAgent.nodeId hbs)
      rw [List.foldl_cons]
      refine ih (positionStep env acc b) a p hbs hnodup'.2 ?_
      rw [positionStep_lookup_other env acc b a.nodeId hne, hp]

def c8env : PosEnv :=
  { time := 0, hashMod := fun _ => 0,
    uniformDraws := fun _ => (10, 10, 10), jitter := fun _ => (0, 0, 0) }

def c8agentB : MapAgent := { nodeId := "B", trustScore := none }

def c8st : Positions := [("A", { x := 0, y := 0, z := 0 })]

/-- C8 counterexample: with one agent already positioned, a new agent
`B` is assigned the legitimate `uniform(-10, 10)` draw (10, 10, 10)
without any clamp, and that stored position lies √300 ≈ 17.3 > 15 units
from the origin — refuting "every position stored ... is at most 15
units from the origin ... including agents that had no prior position
and are newly assigned one during the call". -/
theorem update_positions_new_agent_beyond_15_counterexample :
    posGet (updatePositionsFromSimulation c8env [c8agentB] c8st) "B" =
      some { x := 10, y := 10, z := 10 } ∧
    ((-10 : ℝ) ≤ 10 ∧ (10 : ℝ) ≤ 10) ∧
    15 < dist3 { x := 10, y := 10, z := 10 } := by
  refine ⟨rfl, ⟨by norm_num, le_refl _⟩, ?_⟩
  have h15 : (15 : ℝ) = Real.sqrt 225 := by
    rw [show (225 : ℝ) = 15 ^ 2 by norm_num, Real.sqrt_sq (by norm_num)]
  show (15 : ℝ) < Real.sqrt ((10 : ℝ) ^ 2 + (10 : ℝ) ^ 2 + (10 : ℝ) ^ 2)
  rw [h15, show ((10 : ℝ) ^ 2 + (10 : ℝ) ^ 2 + (10 : ℝ) ^ 2) = 300 by norm_num]
  exact Real.sqrt_lt_sqrt (by norm_num) (by norm_num)

/-- C8 (amended): every position `update_positions_from_simulation`
stores for an agent that **already had** a position is at most 15 units
from the origin — the move-and-clamp path ends in a radial clamp to the
15-unit sphere — and this persists over any number of successive calls;
an agent with **no** prior position, however, is assigned a raw
`uniform(-10, 10)³ ` draw in the call that first positions it, which
can lie up to 10·√3 ≈ 17.3 units out (see the counterexample), and is
only pulled inside the sphere by the next call's clamp. -/
theorem update_positions_existing_within_15 (env : PosEnv)
    (agents : List MapAgent) (st : Positions) (a : MapAgent) (p : Vec3)
    (hmem : a ∈ agents)
    (hnodup : (agents.map MapAgent.nodeId).Nodup)
    (hprior : st.lookup a.nodeId = some p) :
    posGet (updatePositionsFromSimulation env agents st) a.nodeId =
      some (moveAndClamp env a p) ∧
    dist3 (moveAndClamp env a p) ≤ 15 := by
  have hne : st.isEmpty = false := by
    cases st with
    | nil => simp [List.lookup] at hprior
    | cons x xs => rfl
  refine ⟨?_, moveAndClamp_le env a p⟩
  rw [updatePositionsFromSimulation, hne]
  simp only [Bool.false_eq_true, if_false]
  exact foldl_positionStep_existing env agents (st, 0) a p hmem hnodup hprior

def c8agentA : MapAgent := { nodeId := "A", trustScore := none }

/-- C8 witness: the amended theorem applied to agent `A`, already
positioned at (1, 2, 3). -/
theorem update_positions_existing_within_15_witness :
    posGet (updatePositionsFromSimulation c8env [c8agentA] c8st) "A" =
      some (moveAndClamp c8env c8agentA { x := 0, y := 0, z := 0 }) ∧
    dist3 (moveAndClamp c8env c8agentA { x := 0, y := 0, z := 0 }) ≤ 15 :=
  update_positions_existing_within_15 c8env [c8agentA] c8st c8agentA
    { x := 0, y := 0, z := 0 } (by simp) (by simp) rfl

/-! ## Validation cache (`src/decentralized-ai-simulation/src/core/agents.py`)

`AnomalyAgent.validate_signature` (agents.py:279-344) with its cache
key builder `_create_signature_cache_key` (agents.py:328-344), mean
extractor `_extract_signature_mean` (agents.py:346-360), similarity
test `_calculate_similarity_optimized` (agents.py:362-380) and
`_cache_and_return` (agents.py:382-391).  The constants are the
source's: failure rate 0.2, minimum data points 10, similarity
threshold 0.7, epsilon 1e-10, absolute-difference bound 0.1, cache cap
100 with oldest-half eviction.  The two `random.random()` draws a call
may consume arrive as explicit inputs; `"mean_%.2f"` quantisation is
modelled as rounding `100·mean` to an integer. -/

/-- The fingerprint `_create_signature_cache_key` produces: `"empty"`,
`"no_packets_<n>"`, or `"mean_<m>_count_<n>"`. -/
inductive CacheKey : Type where
  | empty
  | noPackets (count : Nat)
  | meanCount (quantizedMean : ℤ) (count : Nat)
deriving DecidableEq

structure ValAgentState where
  recentData : List ℚ
  validationCache : List (CacheKey × Bool)
  cacheHits : Nat
  cacheMisses : Nat

/-- `self.validation_failure_rate = 0.2`. -/
def validationFailureRate : ℚ := mkRat 1 5

/-- `np.mean` over an already-extracted list. -/
def listMean (l : List ℚ) : ℚ := l.sum / l.length

/-- `signature.get('features', [])`, read as a list. -/
def sigFeatures (sig : PyDict) : List PyVal :=
  match dictGet sig "features" with
  | some (.listV l) => l
  | _ => []

/-- `[f.get('packet_size', 0) for f in features[:5] if isinstance(f,
dict) and 'packet_size' in f]` (agents.py:335-338). -/
def firstFivePacketSizes (feats : List PyVal) : List ℚ :=
  (feats.take 5).filterMap fun f =>
    match f with
    | .dictV d =>
      match d.lookup "packet_size" with
      | some v => some (v.asNum.getD 0)
      | none => none
    | _ => none

/-- The `float(feature['packet_size'])` loop of
`_extract_signature_mean` (agents.py:352-358): non-numeric values are
skipped. -/
def allPacketSizes (feats : List PyVal) : List ℚ :=
  feats.filterMap fun f =>
    match f with
    | .dictV d =>
      match d.lookup "packet_size" with
      | some v => v.asNum
      | none => none
    | _ => none

/-- `_create_signature_cache_key` (agents.py:328-344). -/
def createSignatureCacheKey (sig : PyDict) : CacheKey :=
  let features := sigFeatures sig
  if features.isEmpty then .empty
  else
    let packetSizes := firstFivePacketSizes features
    if packetSizes.isEmpty then .noPackets features.length
    else .meanCount (round (listMean packetSizes * 100)) features.length

/-- `_extract_signature_mean` (agents.py:346-360). -/
def extractSignatureMean (sig : PyDict) : Option ℚ :=
  let feats := sigFeatures sig
  if feats.isEmpty then none
  else
    let ps := allPacketSizes feats
    if ps.isEmpty then none else some (listMean ps)

/-- `_calculate_similarity_optimized` (agents.py:362-380): one-dimensional
cosine similarity with the near-zero fallback. -/
def calculateSimilarityOptimized (recentMean sigMean : ℚ) : Bool :=
  if |recentMean| < mkRat 1 10000000000 ∨ |sigMean| < mkRat 1 10000000000 then
    |recentMean - sigMean| < mkRat 1 10
  else
    let dotProduct := recentMean * sigMean
    let norm1 := |recentMean|
    let norm2 := |sigMean|
    if norm1 = 0 ∨ norm2 = 0 then false
    else mkRat 7 10 < dotProduct / (norm1 * norm2)

/-- Python dict assignment on the cache's association list. -/
def cacheAssign : List (CacheKey × Bool) → CacheKey → Bool →
    List (CacheKey × Bool)
  | [], k, v => [(k, v)]
  | (k', v') :: rest, k, v =>
    if k' = k then (k', v) :: rest else (k', v') :: cacheAssign rest k v

/-- `_cache_and_return` (agents.py:382-391): when the cache holds more
than 100 entries, keep only `items[50:]` (drop the oldest half), then
store and return the result. -/
def cacheAndReturn (st : ValAgentState) (key : CacheKey) (result : Bool) :
    Bool × ValAgentState :=
  let cache := if st.validationCache.length > 100
    then st.validationCache.drop 50 else st.validationCache
  (result, { st with validationCache := cacheAssign cache key result })

/-- `validate_signature` (agents.py:279-344): cache lookup (a hit bumps
the hit counter and short-circuits), then miss counter, then — in
source order — the insufficient-data draw, the simulated-failure draw,
the feature-mean extraction, and the similarity test; every miss path
stores its result through `_cache_and_return`. -/
def validateSignature (st : ValAgentState) (sig : PyDict) (d1 d2 : ℚ) :
    Bool × ValAgentState :=
  let key := createSignatureCacheKey sig
  match st.validationCache.lookup key with
  | some b => (b, { st with cacheHits := st.cacheHits + 1 })
  | none =>
    let st1 : ValAgentState := { st with cacheMisses := st.cacheMisses + 1 }
    if st1.recentData.length < 10 then
      cacheAndReturn st1 key (validationFailureRate < d1)
    else if d1 < validationFailureRate then
      cacheAndReturn st1 key (validationFailureRate < d2)
    else
      match extractSignatureMean sig with
      | none => cacheAndReturn st1 key false
      | some sigMean =>
        cacheAndReturn st1 key
          (calculateSimilarityOptimized (listMean st1.recentData) sigMean)

lemma cacheAssign_lookup_self (cache : List (CacheKey × Bool))
    (k : CacheKey) (v : Bool) : (cacheAssign cache k v).lookup k = some v := by
  induction cache with
  | nil => simp [cacheAssign, List.lookup]
  | cons kv rest ih =>
    obtain ⟨k', v'⟩ := kv
    by_cases h : k' = k
    · subst h; simp [cacheAssign, List.lookup]
    · have hkk : (k == k') = false := beq_eq_false_iff_ne.mpr (Ne.symm h)
      simp [cacheAssign, h, List.lookup, hkk, ih]

lemma cacheAndReturn_spec (st : ValAgentState) (key : CacheKey) (v : Bool) :
    (cacheAndReturn st key v).1 = v ∧
    (cacheAndReturn st key v).2.validationCache.lookup key = some v ∧
    (cacheAndReturn st key v).2.cacheHits = st.cacheHits ∧
    (cacheAndReturn st key v).2.cacheMisses = st.cacheMisses :=
  ⟨rfl, cacheAssign_lookup_self _ key v, rfl, rfl⟩

/-- C9: with at least 10 recent samples, two `validate_signature` calls
whose signatures share the cache fingerprint (mean packet size over the
first 5 features, quantised, plus feature count) return the same
boolean; the second is served from the validation cache — its hit
counter rises by exactly one and its miss counter does not move —
whatever the four random draws were. -/
theorem validate_signature_cache_hit (st : ValAgentState)
    (sig1 sig2 : PyDict) (d1 d2 d3 d4 : ℚ)
    (hdata : 10 ≤ st.recentData.length)
    (hkey : createSignatureCacheKey sig1 = createSignatureCacheKey sig2) :
    (validateSignature (validateSignature st sig1 d1 d2).2 sig2 d3 d4).1 =
      (validateSignature st sig1 d1 d2).1 ∧
    (validateSignature (validateSignature st sig1 d1 d2).2 sig2 d3 d4).2.cacheHits
      = (validateSignature st sig1 d1 d2).2.cacheHits + 1 ∧
    (validateSignature (validateSignature st sig1 d1 d2).2 sig2 d3 d4).2.cacheMisses
      = (validateSignature st sig1 d1 d2).2.cacheMisses := by
  cases hl : st.validationCache.lookup (createSignatureCacheKey sig1) with
  | some b =>
    have h1 : validateSignature st sig1 d1 d2 =
        (b, { st with cacheHits := st.cacheHits + 1 }) := by
      rw [validateSignature]
      simp only [hl]
    rw [h1]
    have h2 : validateSignature { st with cacheHits := st.cacheHits + 1 }
        sig2 d3 d4 =
        (b, { st with cacheHits := st.cacheHits + 1 + 1 }) := by
      rw [validateSignature]
      simp only [← hkey, hl]
    rw [h2]
    exact ⟨rfl, rfl, rfl⟩
  | none =>
    have hshape : ∃ B : Bool, validateSignature st sig1 d1 d2 =
        cacheAndReturn { st with cacheMisses := st.cacheMisses + 1 }
          (createSignatureCacheKey sig1) B := by
      rw [validateSignature]
      simp only [hl]
      split
      · exact ⟨_, rfl⟩
      split
      · exact ⟨_, rfl⟩
      cases extractSignatureMean sig1 with
      | none => exact ⟨_, rfl⟩
      | some m => exact ⟨_, rfl⟩
    obtain ⟨B, hB⟩ := hshape
    rw [hB]
    obtain ⟨hfst, hlook, hhits, hmiss⟩ := cacheAndReturn_spec
      { st with cacheMisses := st.cacheMisses + 1 }
      (createSignatureCacheKey sig1) B
    have h2 : validateSignature
        (cacheAndReturn { st with cacheMisses := st.cacheMisses + 1 }
          (createSignatureCacheKey sig1) B).2 sig2 d3 d4 =
        (B, { (cacheAndReturn { st with cacheMisses := st.cacheMisses + 1 }
                (createSignatureCacheKey sig1) B).2 with
              cacheHits := (cacheAndReturn
                { st with cacheMisses := st.cacheMisses + 1 }
                (createSignatureCacheKey sig1) B).2.cacheHits + 1 }) := by
      rw [validateSignature]
      simp only [← hkey, hlook]
    rw [h2, hfst]
    exact ⟨rfl, rfl, rfl⟩

def c9state : ValAgentState :=
  { recentData := [100, 100, 100, 100, 100, 100, 100, 100, 100, 100],
    validationCache := [], cacheHits := 0, cacheMisses := 0 }

def c9sig1 : PyDict := [("features", .listV [.num 1, .num 2])]

def c9sig2 : PyDict := [("features", .listV [.num 3, .num 4])]

/-- C9 witness: the theorem applied to an agent holding 10 samples and
two distinct signatures that share the fingerprint `no_packets_2`. -/
theorem validate_signature_cache_hit_witness :
    (validateSignature
      (validateSignature c9state c9sig1 (mkRat 1 10) (mkRat 9 10)).2
      c9sig2 (mkRat 3 10) (mkRat 1 2)).1 =
      (validateSignature c9state c9sig1 (mkRat 1 10) (mkRat 9 10)).1 ∧
    (validateSignature
      (validateSignature c9state c9sig1 (mkRat 1 10) (mkRat 9 10)).2
      c9sig2 (mkRat 3 10) (mkRat 1 2)).2.cacheHits =
      (validateSignature c9state c9sig1 (mkRat 1 10) (mkRat 9 10)).2.cacheHits
        + 1 ∧
    (validateSignature
      (validateSignature c9state c9sig1 (mkRat 1 10) (mkRat 9 10)).2
      c9sig2 (mkRat 3 10) (mkRat 1 2)).2.cacheMisses =
      (validateSignature c9state c9sig1 (mkRat 1 10) (mkRat 9 10)).2.cacheMisses :=
  validate_signature_cache_hit c9state c9sig1 c9sig2
    (mkRat 1 10) (mkRat 9 10) (mkRat 3 10) (mkRat 1 2)
    (by decide) (by decide)

/-! ## Configuration loader cache (`src/config_loader.py`)

`ConfigLoader.get` (config_loader.py:385-415): the value cache is
consulted **before** the hot-reload check; on a cache miss the loader
may reload the file (replacing `self.config`, leaving `self._cache`
untouched — `_load_config`, config_loader.py:226-259, never clears the
cache), then navigates the nested tree by the dot-split key; a
`KeyError`/`TypeError` with a non-None default caches and returns the
default, otherwise raises `KeyError`.  `clear_cache`
(config_loader.py:425-429) empties the cache.  External effects — the
file changing on disk (a reload delivering a new tree) and later
in-memory additions to `self.config` — are explicit operations. -/

/-- `key.split('.')`, structurally on characters. -/
def splitDotsAux : List Char → List Char → List String
  | acc, [] => [String.mk acc.reverse]
  | acc, c :: cs =>
    if c = '.' then String.mk acc.reverse :: splitDotsAux [] cs
    else splitDotsAux (c :: acc) cs

def splitDots (s : String) : List String := splitDotsAux [] s.data

/-- The `for k in keys: value = value[k]` walk (config_loader.py:399-402);
a missing key (`KeyError`) or a non-dict intermediate (`TypeError`)
yields `none`. -/
def lookupPath (v : PyVal) : List String → Option PyVal
  | [] => some v
  | k :: ks =>
    match v with
    | .dictV entries =>
      match entries.lookup k with
      | some v' => lookupPath v' ks
      | none => none
    | _ => none

/-- Python dict assignment on the value cache. -/
def cacheInsert : List (String × PyVal) → String → PyVal →
    List (String × PyVal)
  | [], k, v => [(k, v)]
  | (k', v') :: rest, k, v =>
    if k' = k then (k', v) :: rest else (k', v') :: cacheInsert rest k v

structure CLState where
  config : PyVal
  cache : List (String × PyVal)

/-- `ConfigLoader.get` (config_loader.py:385-415).  `reloaded` carries
the tree `_load_config` would install when `_should_reload_config`
fires on this call (`none`: the file did not change). -/
def clGet (cl : CLState) (key : String) (default : Option PyVal)
    (reloaded : Option PyVal) : CLState × Except String PyVal :=
  match cl.cache.lookup key with
  | some v => (cl, .ok v)
  | none =>
    let cl1 := match reloaded with
      | some newCfg => { cl with config := newCfg }
      | none => cl
    match lookupPath cl1.config (splitDots key) with
    | some v => ({ cl1 with cache := cacheInsert cl1.cache key v }, .ok v)
    | none =>
      match default with
      | some d => ({ cl1 with cache := cacheInsert cl1.cache key d }, .ok d)
      | none =>
        (cl1, .error ("Configuration key '" ++ key ++ "' not found"))

/-- The events that can hit a loader between two `get` calls. -/
inductive ConfigOp : Type where
  | get (key : String) (default : Option PyVal) (reloaded : Option PyVal)
  | setConfig (newConfig : PyVal)
  | clearCache

/-- Whether an operation is `clear_cache`. -/
def ConfigOp.isClear : ConfigOp → Bool
  | .clearCache => true
  | _ => false

def runConfigOps : CLState → List ConfigOp → CLState
  | cl, [] => cl
  | cl, op :: ops =>
    match op with
    | .get k d r => runConfigOps (clGet cl k d r).1 ops
    | .setConfig c => runConfigOps { cl with config := c } ops
    | .clearCache => runConfigOps { cl with cache := [] } ops

lemma cacheInsert_lookup_self (cache : List (String × PyVal)) (k : String)
    (v : PyVal) : (cacheInsert cache k v).lookup k = some v := by
  induction cache with
  | nil => simp [cacheInsert, List.lookup]
  | cons kv rest ih =>
    obtain ⟨k', v'⟩ := kv
    by_cases h : k' = k
    · subst h; simp [cacheInsert, List.lookup]
    · have hkk : (k == k') = false := beq_eq_false_iff_ne.mpr (Ne.symm h)
      simp [cacheInsert, h, List.lookup, hkk, ih]

lemma cacheInsert_lookup_ne (cache : List (String × PyVal)) (k k' : String)
    (v : PyVal) (h : k' ≠ k) :
    (cacheInsert cache k v).lookup k' = cache.lookup k' := by
  have hkk : (k' == k) = false := beq_eq_false_iff_ne.mpr h
  induction cache with
  | nil => simp [cacheInsert, List.lookup, hkk]
  | cons kv rest ih =>
    obtain ⟨k0, v0⟩ := kv
    by_cases h0 : k0 = k
    · subst h0; simp [cacheInsert, List.lookup, hkk]
    · cases hbk : (k' == k0) <;>
        simp [cacheInsert, if_neg h0, List.lookup, hbk, ih]

lemma clGet_cache_stable (cl : CLState) (key k : String) (v : PyVal)
    (d : Option PyVal) (r : Option PyVal)
    (hv : cl.cache.lookup key = some v) :
    (clGet cl k d r).1.cache.lookup key = some v := by
  by_cases hkey : k = key
  · subst hkey
    rw [clGet.eq_def]
    simp only [hv]
  · rw [clGet.eq_def]
    cases hl : cl.cache.lookup k with
    | some b => simp only [hl]; exact hv
    | none =>
      simp only [hl]
      cases r <;> cases hpath : lookupPath _ (splitDots k) <;> cases d <;>
        simp [hpath, cacheInsert_lookup_ne _ _ _ _ (Ne.symm hkey), hv]

lemma runConfigOps_cache_stable :
    ∀ (ops : List ConfigOp) (cl : CLState) (key : String) (v : PyVal),
      cl.cache.lookup key = some v →
      (ops.all fun op => !op.isClear) = true →
      (runConfigOps cl ops).cache.lookup key = some v := by
  intro ops
  induction ops with
  | nil => intro cl key v hv _; exact hv
  | cons op ops ih =>
    intro cl key v hv hall
    rw [List.all_cons, Bool.and_eq_true] at hall
    cases op with
    | get k d r =>
      exact ih _ key v (clGet_cache_stable cl key k v d r hv) hall.2
    | setConfig c => exact ih _ key v hv hall.2
    | clearCache => simp [ConfigOp.isClear] at hall

/-- C10: a `get(key, default)` on a key absent from the configuration
(and not yet cached) returns the default and stores it in the value
cache; from then on — across any sequence of further `get`s (even ones
that hot-reload the file), and across any later additions to the
in-memory configuration, as long as `clear_cache` is not called — a
`get` for the same key returns that first default, whatever different
default it passes and whether or not the file changed (the cache is
consulted before the reload check, so a reload on the later call cannot
displace the cached value). -/
theorem config_get_caches_first_default (cl : CLState) (key : String)
    (d : PyVal) (ops : List ConfigOp)
    (hmiss : cl.cache.lookup key = none)
    (habsent : lookupPath cl.config (splitDots key) = none)
    (hops : (ops.all fun op => !op.isClear) = true) :
    (clGet cl key (some d) none).2 = .ok d ∧
    (clGet cl key (some d) none).1.cache.lookup key = some d ∧
    ∀ (d' : Option PyVal) (r' : Option PyVal),
      (clGet (runConfigOps (clGet cl key (some d) none).1 ops) key d' r').2 =
        .ok d := by
  have h1 : clGet cl key (some d) none =
      ({ cl with cache := cacheInsert cl.cache key d }, .ok d) := by
    rw [clGet.eq_def]
    simp only [hmiss, habsent]
  refine ⟨by rw [h1], ?_, ?_⟩
  · rw [h1]
    exact cacheInsert_lookup_self cl.cache key d
  · intro d' r'
    have hstable := runConfigOps_cache_stable ops (clGet cl key (some d) none).1
      key d (by rw [h1]; exact cacheInsert_lookup_self cl.cache key d) hops
    generalize hst2 : runConfigOps (clGet cl key (some d) none).1 ops = st2 at hstable ⊢
    rw [clGet.eq_def]
    simp only [hstable]

def c10config : PyVal := .dictV [("database", .dictV [("timeout", .num 30)])]

def c10ops : List ConfigOp :=
  [.setConfig (.dictV [("database",
      .dictV [("timeout", .num 30), ("poolsize", .num 99)])]),
   .get "database.timeout" none none]

/-- C10 witness: key `database.poolsize` is absent; `get` caches the
default 42; after the key is added to the in-memory tree and another
key is read, a `get` with the different default 7 still returns 42. -/
theorem config_get_caches_first_default_witness :
    (clGet { config := c10config, cache := [] } "database.poolsize"
      (some (.num 42)) none).2 = .ok (.num 42) ∧
    (clGet (runConfigOps (clGet { config := c10config, cache := [] }
        "database.poolsize" (some (.num 42)) none).1 c10ops)
      "database.poolsize" (some (.num 7)) none).2 = .ok (.num 42) := by
  have h := config_get_caches_first_default
    { config := c10config, cache := [] } "database.poolsize" (.num 42)
    c10ops rfl rfl rfl
  exact ⟨h.1, h.2.2 (some (.num 7)) none⟩
